import Mathlib

/-!
Verification of the `bank` package (learn-go): accounts with a balance and
transaction history, deposit/withdraw/transfer operations, a closure-based
history reader, and whole-registry persistence.

Go `int` amounts are modelled as `Int`; Go slices as `List`; the closure
state of the history reader as an explicit record; the account registry map
as an association list; errors as an inductive carrying the data that the
source formats into the error message.
-/

namespace Bank

/-- One transaction record: the signed amount and the resulting balance
(Go struct `history{Amt, Bal int}`). -/
structure history where
  Amt : Int
  Bal : Int
deriving DecidableEq, Repr

/-- A bank account (Go struct `Account{Name string; Bal int; Hist []history}`). -/
structure Account where
  Name : String
  Bal : Int
  Hist : List history
deriving DecidableEq, Repr

/-- Error values produced by the operations; the constructor and its fields
carry exactly the data the Go source formats into the error string. -/
inductive BankError where
  | invalidAmount (op : String) (m : Int)
  | insufficientFunds (op : String) (m bal : Int)
deriving DecidableEq, Repr

/-- `NewAccount` (account-construction part): `&Account{Name: s}`,
so balance 0 and nil history. -/
def NewAccount (s : String) : Account :=
  { Name := s, Bal := 0, Hist := [] }

/-- `Deposit(a, m)`: returns the updated account together with the returned
balance and error, mirroring the Go mutation of `*Account`. -/
def Deposit (a : Account) (m : Int) : Account × Int × Option BankError :=
  if m < 0 then
    (a, a.Bal, some (.invalidAmount "Deposit" m))
  else
    let bal := a.Bal + m
    ({ a with Bal := bal, Hist := a.Hist ++ [⟨m, bal⟩] }, bal, none)

/-- `Withdraw(a, m)`: checks `m < 0` then `m > a.Bal`, then subtracts and
appends `history{-m, a.Bal}`. -/
def Withdraw (a : Account) (m : Int) : Account × Int × Option BankError :=
  if m < 0 then
    (a, a.Bal, some (.invalidAmount "Withdraw" m))
  else if a.Bal < m then
    (a, a.Bal, some (.insufficientFunds "Withdraw" m a.Bal))
  else
    let bal := a.Bal - m
    ({ a with Bal := bal, Hist := a.Hist ++ [⟨-m, bal⟩] }, bal, none)

/-- `Transfer(a, b, m)` for two distinct accounts: the `switch` returns
`(a.Bal, b.Bal, err)` on a negative amount and `(0, a.Bal, err)` on
insufficient funds (the source's error message there says "Withdraw:");
on success it moves `m` and appends one record to each history. -/
def Transfer (a b : Account) (m : Int) :
    Account × Account × Int × Int × Option BankError :=
  if m < 0 then
    (a, b, a.Bal, b.Bal, some (.invalidAmount "Transfer" m))
  else if a.Bal < m then
    (a, b, 0, a.Bal, some (.insufficientFunds "Withdraw" m a.Bal))
  else
    let abal := a.Bal - m
    let bbal := b.Bal + m
    ({ a with Bal := abal, Hist := a.Hist ++ [⟨-m, abal⟩] },
     { b with Bal := bbal, Hist := b.Hist ++ [⟨m, bbal⟩] },
     abal, bbal, none)

/-- The account registry (`var accounts map[string]*Account`), modelled as an
association list from name to account. -/
abbrev Registry := List (String × Account)

/-- Go map assignment `accounts[s] = a`: overwrite the binding if the name is
present, otherwise add it. -/
def setAccount : Registry → String → Account → Registry
  | [], s, a => [(s, a)]
  | (k, v) :: t, s, a =>
    if k = s then (s, a) :: t else (k, v) :: setAccount t s a

/-- Go map read `accounts[name]` (with the `ok` flag as `Option`),
as used by `GetAccount`. -/
def getAccount : Registry → String → Option Account
  | [], _ => none
  | (k, v) :: t, name => if k = name then some v else getAccount t name

/-- `NewAccount(s)` as an operation on the registry: builds the fresh account,
stores it under its name, and returns it. -/
def NewAccountReg (r : Registry) (s : String) : Registry × Account :=
  let a := NewAccount s
  (setAccount r s a, a)

/-- State of the closure returned by `History(a)`: the captured index `i`
and flag `more`. -/
structure Reader where
  i : Nat
  more : Bool
deriving DecidableEq, Repr

/-- The closure state right after `History(a)` returns: `i = 0`, `more = true`. -/
def readerInit : Reader := { i := 0, more := true }

/-- One call of the closure returned by `History(a)`: yields
`(amt, bal, more)` and the updated state, or `none` where the Go code would
panic on an out-of-range index after exhaustion. -/
def historyNext (a : Account) (r : Reader) :
    Option ((Int × Int × Bool) × Reader) :=
  if a.Hist.length = 0 then
    some ((0, 0, false), r)
  else if h : r.i < a.Hist.length then
    let m := if a.Hist.length - 1 ≤ r.i then false else r.more
    let rec0 := a.Hist.get ⟨r.i, h⟩
    some ((rec0.Amt, rec0.Bal, m), { i := r.i + 1, more := m })
  else
    none

/-- Call the history closure `n` times from state `r`, collecting the yielded
triples; `none` if some call would panic. -/
def runCalls (a : Account) (r : Reader) : Nat → Option (List (Int × Int × Bool))
  | 0 => some []
  | n + 1 =>
    match historyNext a r with
    | none => none
    | some (out, r') => (runCalls a r' n).map (out :: ·)

/-- Atomic tokens of the serialized snapshot stream: the gob wire format is
opaque, so the snapshot is modelled at the level of the primitive values it
encodes (lengths, integers, strings). -/
inductive Tok where
  | nat (n : Nat)
  | int (i : Int)
  | str (s : String)
deriving DecidableEq, Repr

/-- Serialize one history record. -/
def encodeHist (h : history) : List Tok :=
  [.int h.Amt, .int h.Bal]

/-- Parse one history record from the stream. -/
def decodeHist : List Tok → Option (history × List Tok)
  | .int a :: .int b :: rest => some (⟨a, b⟩, rest)
  | _ => none

/-- Serialize a history list, record by record. -/
def encodeHists : List history → List Tok
  | [] => []
  | h :: t => encodeHist h ++ encodeHists t

/-- Parse `n` history records from the stream. -/
def decodeHists : Nat → List Tok → Option (List history × List Tok)
  | 0, rest => some ([], rest)
  | n + 1, ts =>
    match decodeHist ts with
    | none => none
    | some (h, rest) =>
      match decodeHists n rest with
      | none => none
      | some (l, rest') => some (h :: l, rest')

/-- Serialize one account: name, balance, history length, history records. -/
def encodeAccount (a : Account) : List Tok :=
  .str a.Name :: .int a.Bal :: .nat a.Hist.length :: encodeHists a.Hist

/-- Parse one account from the stream. -/
def decodeAccount : List Tok → Option (Account × List Tok)
  | .str s :: .int b :: .nat n :: rest =>
    match decodeHists n rest with
    | none => none
    | some (l, rest') => some (⟨s, b, l⟩, rest')
  | _ => none

/-- Serialize the registry entries: map key followed by the account. -/
def encodeEntries : Registry → List Tok
  | [] => []
  | (k, a) :: t => .str k :: (encodeAccount a ++ encodeEntries t)

/-- Parse `n` registry entries from the stream. -/
def decodeEntries : Nat → List Tok → Option (Registry × List Tok)
  | 0, rest => some ([], rest)
  | n + 1, .str k :: ts =>
    match decodeAccount ts with
    | none => none
    | some (a, rest) =>
      match decodeEntries n rest with
      | none => none
      | some (r, rest') => some ((k, a) :: r, rest')
  | _ + 1, _ => none

/-- `Save()`: encode the whole registry (entry count, then the entries) into
the snapshot stream written to `bank.data`. -/
def Save (r : Registry) : List Tok :=
  .nat r.length :: encodeEntries r

/-- `Load()`: decode a snapshot stream back into a registry, replacing
whatever the in-memory registry held; `none` models a decode error. -/
def Load : List Tok → Option Registry
  | .nat n :: ts =>
    match decodeEntries n ts with
    | none => none
    | some (r, _) => some r
  | _ => none

/-! ## The balance/history invariant -/

/-- Sum of the amounts of a history list. -/
def sumAmts (l : List history) : Int :=
  (l.map history.Amt).sum

/-- Replaying a history from balance `b`: each record's stored resulting
balance must equal the running balance plus the record's amount. -/
def replayFrom (b : Int) : List history → Bool
  | [] => true
  | h :: t => (b + h.Amt == h.Bal) && replayFrom h.Bal t

/-- The balance reached after replaying a history from `b`. -/
def endBal (b : Int) : List history → Int
  | [] => b
  | h :: t => endBal h.Bal t

/-- The last history record's resulting balance (if any) equals the current
balance. -/
def lastBalOk (a : Account) : Bool :=
  match a.Hist.getLast? with
  | none => true
  | some h => h.Bal == a.Bal

/-- The spec's account invariant: balance equals the sum of history amounts,
replaying the history from 0 reconstructs every stored resulting balance,
and the last record's resulting balance is the current balance. -/
def Invariant (a : Account) : Bool :=
  (a.Bal == sumAmts a.Hist) && replayFrom 0 a.Hist && lastBalOk a

theorem sumAmts_append (l : List history) (x : history) :
    sumAmts (l ++ [x]) = sumAmts l + x.Amt := by
  simp [sumAmts]

theorem replayFrom_append (b : Int) (l : List history) (x : history) :
    replayFrom b (l ++ [x]) =
      (replayFrom b l && (endBal b l + x.Amt == x.Bal)) := by
  induction l generalizing b with
  | nil => simp [replayFrom, endBal]
  | cons h t ih => simp [replayFrom, endBal, ih, Bool.and_assoc]

theorem endBal_getLast (b : Int) (l : List history) (x : history)
    (hx : l.getLast? = some x) : endBal b l = x.Bal := by
  induction l generalizing b with
  | nil => simp at hx
  | cons h t ih =>
    cases t with
    | nil => simp at hx; simp [endBal, hx]
    | cons h' t' =>
      rw [List.getLast?_cons_cons] at hx
      exact ih h.Bal hx

theorem invariant_endBal (a : Account) (h : Invariant a = true) :
    endBal 0 a.Hist = a.Bal := by
  rcases a with ⟨nm, bal, hist⟩
  simp only [Invariant, Bool.and_eq_true, beq_iff_eq, lastBalOk] at h
  obtain ⟨⟨hsum, _⟩, hlast⟩ := h
  cases hh : hist.getLast? with
  | none =>
    have : hist = [] := List.getLast?_eq_none_iff.mp hh
    subst this
    simpa [endBal, sumAmts] using hsum.symm
  | some x =>
    rw [hh] at hlast
    simp only [beq_iff_eq] at hlast
    simpa [endBal_getLast 0 hist x hh]

/-- Appending the record `{d, bal + d}` while adding `d` to the balance
preserves the invariant; this is the shape of every successful mutation. -/
theorem invariant_append (a : Account) (d : Int) (h : Invariant a = true) :
    Invariant { a with Bal := a.Bal + d, Hist := a.Hist ++ [⟨d, a.Bal + d⟩] }
      = true := by
  have hend := invariant_endBal a h
  simp only [Invariant, Bool.and_eq_true, beq_iff_eq, lastBalOk] at h ⊢
  obtain ⟨⟨hsum, hrep⟩, _⟩ := h
  refine ⟨⟨?_, ?_⟩, ?_⟩
  · rw [sumAmts_append]; simpa using congrArg (· + d) hsum
  · rw [replayFrom_append, hrep, hend]; simp
  · simp

/-- C1: accounts start from the invariant state (balance 0, empty history),
and every deposit, withdraw, and transfer — successful or not — preserves
the invariant that the balance equals the sum of history amounts, replaying
the history from 0 reconstructs each stored resulting balance, and the last
record's resulting balance is the current balance. -/
theorem claim1_invariant :
    (∀ s, Invariant (NewAccount s) = true) ∧
    (∀ a m, Invariant a = true → Invariant (Deposit a m).1 = true) ∧
    (∀ a m, Invariant a = true → Invariant (Withdraw a m).1 = true) ∧
    (∀ a b m, Invariant a = true → Invariant b = true →
      Invariant (Transfer a b m).1 = true ∧
      Invariant (Transfer a b m).2.1 = true) := by
  refine ⟨?_, ?_, ?_, ?_⟩
  · intro s
    simp [Invariant, NewAccount, sumAmts, replayFrom, lastBalOk]
  · intro a m h
    by_cases hm : m < 0
    · simpa [Deposit, hm] using h
    · simpa [Deposit, hm] using invariant_append a m h
  · intro a m h
    by_cases hm : m < 0
    · simpa [Withdraw, hm] using h
    · by_cases hb : a.Bal < m
      · simpa [Withdraw, hm, hb] using h
      · simpa [Withdraw, hm, hb, Int.sub_eq_add_neg]
          using invariant_append a (-m) h
  · intro a b m ha hb
    by_cases hm : m < 0
    · exact ⟨by simpa [Transfer, hm] using ha, by simpa [Transfer, hm] using hb⟩
    · by_cases hlt : a.Bal < m
      · refine ⟨?_, ?_⟩
        · simpa [Transfer, hm, hlt] using ha
        · simpa [Transfer, hm, hlt] using hb
      · refine ⟨?_, ?_⟩
        · simpa [Transfer, hm, hlt, Int.sub_eq_add_neg]
            using invariant_append a (-m) ha
        · simpa [Transfer, hm, hlt] using invariant_append b m hb

/-- Witness for C1 at concrete inputs. -/
theorem claim1_invariant_witness :
    Invariant (Deposit (NewAccount "Pike") 100).1 = true ∧
    Invariant (Transfer (Deposit (NewAccount "A") 100).1 (NewAccount "B") 40).1
      = true :=
  ⟨claim1_invariant.2.1 (NewAccount "Pike") 100 (by decide),
   (claim1_invariant.2.2.2 (Deposit (NewAccount "A") 100).1 (NewAccount "B") 40
      (by decide) (by decide)).1⟩

/-- C2: with `0 ≤ m ≤ a.Bal`, `Transfer a b m` succeeds, moves `m` from `a`
to `b`, appends exactly one record to each history (`{-m, newBal}` to the
source, `{m, newBal}` to the destination), returns the pair of new balances,
and changes no other field. -/
theorem claim2_transfer_success (a b : Account) (m : Int)
    (h0 : 0 ≤ m) (h1 : m ≤ a.Bal) :
    Transfer a b m =
      ({ a with Bal := a.Bal - m, Hist := a.Hist ++ [⟨-m, a.Bal - m⟩] },
       { b with Bal := b.Bal + m, Hist := b.Hist ++ [⟨m, b.Bal + m⟩] },
       a.Bal - m, b.Bal + m, none) := by
  simp [Transfer, not_lt.mpr h0, not_lt.mpr h1]

/-- Witness for C2 at concrete inputs. -/
theorem claim2_transfer_success_witness :
    Transfer ⟨"A", 100, []⟩ ⟨"B", 0, []⟩ 40 =
      (⟨"A", 60, [⟨-40, 60⟩]⟩, ⟨"B", 40, [⟨40, 40⟩]⟩, 60, 40, none) := by
  rw [claim2_transfer_success ⟨"A", 100, []⟩ ⟨"B", 0, []⟩ 40
    (by decide) (by decide)]
  decide

/-- C4: with `0 ≤ m` and `m > a.Bal`, the transfer fails with insufficient
funds, both accounts are unchanged, and the returned pair is
`(0, a.Bal)` — the asymmetric return of the source. -/
theorem claim4_transfer_insufficient (a b : Account) (m : Int)
    (h0 : 0 ≤ m) (h1 : a.Bal < m) :
    Transfer a b m =
      (a, b, 0, a.Bal, some (.insufficientFunds "Withdraw" m a.Bal)) := by
  simp [Transfer, not_lt.mpr h0, h1]

/-- Witness for C4 at concrete inputs. -/
theorem claim4_transfer_insufficient_witness :
    Transfer ⟨"A", 0, []⟩ ⟨"B", 100, []⟩ 100 =
      (⟨"A", 0, []⟩, ⟨"B", 100, []⟩, 0, 0,
        some (.insufficientFunds "Withdraw" 100 0)) := by
  rw [claim4_transfer_insufficient ⟨"A", 0, []⟩ ⟨"B", 100, []⟩ 100
    (by decide) (by decide)]

/-- C10: a negative transfer amount fails with an invalid-amount error and
returns both accounts' current balances unchanged. -/
theorem claim10_transfer_negative (a b : Account) (m : Int) (h : m < 0) :
    Transfer a b m = (a, b, a.Bal, b.Bal, some (.invalidAmount "Transfer" m)) := by
  simp [Transfer, h]

/-- Witness for C10 at concrete inputs. -/
theorem claim10_transfer_negative_witness :
    Transfer ⟨"A", 5, []⟩ ⟨"B", 7, []⟩ (-3) =
      (⟨"A", 5, []⟩, ⟨"B", 7, []⟩, 5, 7,
        some (.invalidAmount "Transfer" (-3))) := by
  rw [claim10_transfer_negative ⟨"A", 5, []⟩ ⟨"B", 7, []⟩ (-3) (by decide)]

/-- C5: deposit fails exactly when the amount is negative; on failure it
returns the prior balance with the account unchanged, and on success it adds
the amount, appends `{m, newBal}`, and returns the new balance. -/
theorem claim5_deposit (a : Account) (m : Int) :
    ((Deposit a m).2.2 ≠ none ↔ m < 0) ∧
    (m < 0 → Deposit a m = (a, a.Bal, some (.invalidAmount "Deposit" m))) ∧
    (0 ≤ m → Deposit a m =
      ({ a with Bal := a.Bal + m, Hist := a.Hist ++ [⟨m, a.Bal + m⟩] },
       a.Bal + m, none)) := by
  refine ⟨?_, ?_, ?_⟩
  · by_cases hm : m < 0 <;> simp [Deposit, hm]
  · intro hm; simp [Deposit, hm]
  · intro hm; simp [Deposit, not_lt.mpr hm]

/-- Witness for C5 at concrete inputs (one success, one failure). -/
theorem claim5_deposit_witness :
    Deposit ⟨"Pike", 0, []⟩ 100 = (⟨"Pike", 100, [⟨100, 100⟩]⟩, 100, none) ∧
    Deposit ⟨"Pike", 58, []⟩ (-1) =
      (⟨"Pike", 58, []⟩, 58, some (.invalidAmount "Deposit" (-1))) := by
  refine ⟨?_, ?_⟩
  · rw [(claim5_deposit ⟨"Pike", 0, []⟩ 100).2.2 (by decide)]; decide
  · rw [(claim5_deposit ⟨"Pike", 58, []⟩ (-1)).2.1 (by decide)]

/-- C6: withdraw fails with invalid-amount on `m < 0` and with insufficient
funds on `m > a.Bal` (so `m = a.Bal` succeeds); on success the balance drops
by `m` and `{-m, newBal}` is appended; on failure the state is unchanged and
the prior balance returned. -/
theorem claim6_withdraw (a : Account) (m : Int) :
    (m < 0 → Withdraw a m = (a, a.Bal, some (.invalidAmount "Withdraw" m))) ∧
    (0 ≤ m → a.Bal < m →
      Withdraw a m = (a, a.Bal, some (.insufficientFunds "Withdraw" m a.Bal))) ∧
    (0 ≤ m → m ≤ a.Bal →
      Withdraw a m =
        ({ a with Bal := a.Bal - m, Hist := a.Hist ++ [⟨-m, a.Bal - m⟩] },
         a.Bal - m, none)) := by
  refine ⟨?_, ?_, ?_⟩
  · intro hm; simp [Withdraw, hm]
  · intro hm hb; simp [Withdraw, not_lt.mpr hm, hb]
  · intro hm hb; simp [Withdraw, not_lt.mpr hm, not_lt.mpr hb]

/-- Witness for C6 at concrete inputs: withdrawing the full balance succeeds,
overdrawing fails without mutation. -/
theorem claim6_withdraw_witness :
    Withdraw ⟨"Pike", 58, []⟩ 58 = (⟨"Pike", 0, [⟨-58, 0⟩]⟩, 0, none) ∧
    Withdraw ⟨"Pike", 58, []⟩ 1000 =
      (⟨"Pike", 58, []⟩, 58, some (.insufficientFunds "Withdraw" 1000 58)) := by
  refine ⟨?_, ?_⟩
  · rw [(claim6_withdraw ⟨"Pike", 58, []⟩ 58).2.2 (by decide) (by decide)]; decide
  · rw [(claim6_withdraw ⟨"Pike", 58, []⟩ 1000).2.1 (by decide) (by decide)]

/-- C7: whenever deposit, withdraw, or transfer returns an error, every
involved account is returned exactly as it was passed in. -/
theorem claim7_failure_no_mutation :
    (∀ a m e, (Deposit a m).2.2 = some e → (Deposit a m).1 = a) ∧
    (∀ a m e, (Withdraw a m).2.2 = some e → (Withdraw a m).1 = a) ∧
    (∀ a b m e, (Transfer a b m).2.2.2.2 = some e →
      (Transfer a b m).1 = a ∧ (Transfer a b m).2.1 = b) := by
  refine ⟨?_, ?_, ?_⟩
  · intro a m e he
    by_cases hm : m < 0
    · simp [Deposit, hm]
    · simp [Deposit, hm] at he
  · intro a m e he
    by_cases hm : m < 0
    · simp [Withdraw, hm]
    · by_cases hb : a.Bal < m
      · simp [Withdraw, hm, hb]
      · simp [Withdraw, hm, hb] at he
  · intro a b m e he
    by_cases hm : m < 0
    · simp [Transfer, hm]
    · by_cases hb : a.Bal < m
      · simp [Transfer, hm, hb]
      · simp [Transfer, hm, hb] at he

/-- Witness for C7 at a concrete failing input. -/
theorem claim7_failure_no_mutation_witness :
    (Withdraw ⟨"Pike", 58, []⟩ 1000).1 = ⟨"Pike", 58, []⟩ :=
  claim7_failure_no_mutation.2.1 ⟨"Pike", 58, []⟩ 1000
    (.insufficientFunds "Withdraw" 1000 58) (by decide)

/-! ## Persistence round trip -/

theorem decodeHist_encodeHist (h : history) (rest : List Tok) :
    decodeHist (encodeHist h ++ rest) = some (h, rest) := rfl

theorem decodeHists_encodeHists (l : List history) (rest : List Tok) :
    decodeHists l.length (encodeHists l ++ rest) = some (l, rest) := by
  induction l with
  | nil => simp [encodeHists, decodeHists]
  | cons h t ih =>
    simp [encodeHists, encodeHist, decodeHists, decodeHist, ih]

theorem decodeAccount_encodeAccount (a : Account) (rest : List Tok) :
    decodeAccount (encodeAccount a ++ rest) = some (a, rest) := by
  simp [encodeAccount, decodeAccount, decodeHists_encodeHists]

theorem decodeEntries_encodeEntries (r : Registry) (rest : List Tok) :
    decodeEntries r.length (encodeEntries r ++ rest) = some (r, rest) := by
  induction r with
  | nil => simp [encodeEntries, decodeEntries]
  | cons p t ih =>
    obtain ⟨k, a⟩ := p
    simp [encodeEntries, decodeEntries, decodeAccount_encodeAccount, ih]

/-- C3: saving a registry and loading the snapshot back (into a cleared
in-memory registry, which `Load` replaces wholesale) reproduces the registry
exactly: same accounts with the same names, balances, and history order. -/
theorem claim3_save_load_roundtrip (r : Registry) : Load (Save r) = some r := by
  have h := decodeEntries_encodeEntries r []
  rw [List.append_nil] at h
  simp [Save, Load, h]

/-! ## Registry creation -/

theorem getAccount_setAccount_self (r : Registry) (s : String) (a : Account) :
    getAccount (setAccount r s a) s = some a := by
  induction r with
  | nil => simp [setAccount, getAccount]
  | cons p t ih =>
    obtain ⟨k, v⟩ := p
    by_cases hk : k = s <;> simp [setAccount, getAccount, hk, ih]

theorem getAccount_setAccount_ne (r : Registry) (s : String) (a : Account)
    (t : String) (ht : t ≠ s) :
    getAccount (setAccount r s a) t = getAccount r t := by
  have hst : s ≠ t := Ne.symm ht
  induction r with
  | nil => simp [setAccount, getAccount, hst]
  | cons p tl ih =>
    obtain ⟨k, v⟩ := p
    by_cases hk : k = s
    · subst hk
      simp [setAccount, getAccount, hst]
    · simp [setAccount, getAccount, hk, ih]

/-- C9: creating an account registers a fresh account with the given name,
balance 0, and empty history, returns it, and replaces any existing account
of that name without error; other names are untouched. -/
theorem claim9_create_account (r : Registry) (s : String) :
    (NewAccountReg r s).2 = ⟨s, 0, []⟩ ∧
    getAccount (NewAccountReg r s).1 s = some ⟨s, 0, []⟩ ∧
    (∀ t, t ≠ s → getAccount (NewAccountReg r s).1 t = getAccount r t) := by
  refine ⟨rfl, ?_, ?_⟩
  · exact getAccount_setAccount_self r s (NewAccount s)
  · intro t ht
    exact getAccount_setAccount_ne r s (NewAccount s) t ht

/-- Witness for C9 at concrete inputs: recreating "A" discards its old
balance and history, and "B" is untouched. -/
theorem claim9_create_account_witness :
    getAccount (NewAccountReg [("A", ⟨"A", 50, [⟨50, 50⟩]⟩)] "A").1 "A" =
      some ⟨"A", 0, []⟩ ∧
    getAccount (NewAccountReg [("A", ⟨"A", 50, [⟨50, 50⟩]⟩)] "A").1 "B" =
      getAccount [("A", ⟨"A", 50, [⟨50, 50⟩]⟩)] "B" :=
  ⟨(claim9_create_account [("A", ⟨"A", 50, [⟨50, 50⟩]⟩)] "A").2.1,
   (claim9_create_account [("A", ⟨"A", 50, [⟨50, 50⟩]⟩)] "A").2.2 "B"
     (by decide)⟩

/-! ## History reader -/

/-- The output the reader should produce over a history list: each record's
amount and resulting balance, with `hasMore` false exactly on the last one. -/
def expectedOut : List history → List (Int × Int × Bool)
  | [] => []
  | h :: t => (h.Amt, h.Bal, !t.isEmpty) :: expectedOut t

theorem expectedOut_length (l : List history) :
    (expectedOut l).length = l.length := by
  induction l with
  | nil => rfl
  | cons h t ih => simp [expectedOut, ih]

theorem expectedOut_get (l : List history) (i : Nat) (hi : i < l.length)
    (hL : i < (expectedOut l).length) :
    (expectedOut l).get ⟨i, hL⟩ =
      ((l.get ⟨i, hi⟩).Amt, (l.get ⟨i, hi⟩).Bal, decide (i + 1 < l.length)) := by
  induction l generalizing i with
  | nil => exact absurd hi (by simp)
  | cons x t ih =>
    cases i with
    | zero =>
      cases t <;> simp [expectedOut]
    | succ j =>
      have hj : j < t.length := Nat.lt_of_succ_lt_succ hi
      have hjL : j < (expectedOut t).length := by
        rw [expectedOut_length]; exact hj
      have hd : decide (j + 1 + 1 < t.length + 1) = decide (j + 1 < t.length) :=
        decide_eq_decide.mpr Nat.succ_lt_succ_iff
      simpa [expectedOut, hd] using ih j hj hjL

theorem get_append_mid (pre : List history) (x : history) (t : List history)
    (hi : pre.length < (pre ++ x :: t).length) :
    (pre ++ x :: t)[pre.length] = x := by
  induction pre with
  | nil => rfl
  | cons p ps ih => simpa using ih (by simp)

/-- One call of the reader positioned at the start of the suffix `x :: t`
yields `x`'s data, with `hasMore` false exactly when `x` is last. -/
theorem historyNext_mid (nm : String) (bal : Int) (pre : List history)
    (x : history) (t : List history) :
    historyNext ⟨nm, bal, pre ++ x :: t⟩ ⟨pre.length, true⟩ =
      some ((x.Amt, x.Bal, !t.isEmpty), ⟨pre.length + 1, !t.isEmpty⟩) := by
  have h0 : ¬ (pre ++ x :: t).length = 0 := by simp
  have hi : pre.length < (pre ++ x :: t).length := by simp
  have hget := get_append_mid pre x t hi
  cases t with
  | nil =>
    have hm : (pre ++ [x]).length - 1 ≤ pre.length := by simp
    simp [historyNext, h0, hi, hm, hget]
  | cons y u =>
    have hm : ¬ (pre ++ x :: y :: u).length - 1 ≤ pre.length := by
      simp [List.length_append]
    simp [historyNext, h0, hi, hm, hget]

/-- Running the reader from the start of a non-empty suffix for exactly the
suffix's length yields the expected output of the suffix. -/
theorem runCalls_append (nm : String) (bal : Int) (suf : List history) :
    ∀ pre, suf ≠ [] →
      runCalls ⟨nm, bal, pre ++ suf⟩ ⟨pre.length, true⟩ suf.length =
        some (expectedOut suf) := by
  induction suf with
  | nil => intro pre hs; exact absurd rfl hs
  | cons x t ih =>
    intro pre _
    show runCalls _ _ (t.length + 1) = _
    rw [runCalls, historyNext_mid]
    cases t with
    | nil => simp [runCalls, expectedOut]
    | cons y u =>
      have h2 := ih (pre ++ [x]) (List.cons_ne_nil y u)
      simp only [List.append_assoc, List.singleton_append,
        List.length_append, List.length_cons, List.length_nil,
        List.length_singleton] at h2
      simp only [List.isEmpty_cons, Bool.not_false]
      rw [show pre.length + 1 = pre.length + 1 from rfl]
      simp [h2, expectedOut]

/-- C8: a fresh reader over a non-empty history of `n` records yields, across
its first `n` calls, exactly the `n` (amount, resultingBalance) pairs in
order, with `hasMore` true on every call but the last; on an empty history
the first call yields `(0, 0, false)`. -/
theorem claim8_history_reader (a : Account) :
    (a.Hist = [] → historyNext a readerInit = some ((0, 0, false), readerInit)) ∧
    (a.Hist ≠ [] → ∃ L,
      runCalls a readerInit a.Hist.length = some L ∧
      L.length = a.Hist.length ∧
      ∀ i (hi : i < a.Hist.length) (hL : i < L.length),
        L.get ⟨i, hL⟩ =
          ((a.Hist.get ⟨i, hi⟩).Amt, (a.Hist.get ⟨i, hi⟩).Bal,
            decide (i + 1 < a.Hist.length))) := by
  constructor
  · intro h
    simp [historyNext, h, readerInit]
  · intro h
    refine ⟨expectedOut a.Hist, ?_, expectedOut_length a.Hist, ?_⟩
    · have hr := runCalls_append a.Name a.Bal a.Hist [] h
      simpa [readerInit] using hr
    · intro i hi hL
      exact expectedOut_get a.Hist i hi hL

/-- Witness for C8 at concrete inputs: a two-record history and an empty
history. -/
theorem claim8_history_reader_witness :
    runCalls ⟨"Pike", 58, [⟨100, 100⟩, ⟨-42, 58⟩]⟩ readerInit 2 =
      some [(100, 100, true), (-42, 58, false)] ∧
    historyNext ⟨"Empty", 0, []⟩ readerInit = some ((0, 0, false), readerInit) := by
  constructor
  · obtain ⟨L, hrun, hlen, hget⟩ :=
      (claim8_history_reader ⟨"Pike", 58, [⟨100, 100⟩, ⟨-42, 58⟩]⟩).2 (by decide)
    have hrun2 : runCalls ⟨"Pike", 58, [⟨100, 100⟩, ⟨-42, 58⟩]⟩ readerInit 2 =
        some L := hrun
    have hlen2 : L.length = 2 := hlen
    have h0 := hget 0 (by decide) (by omega)
    have h1 := hget 1 (by decide) (by omega)
    rcases L with _ | ⟨p, L1⟩
    · simp at hlen2
    rcases L1 with _ | ⟨q, L2⟩
    · simp at hlen2
    rcases L2 with _ | ⟨r0, L3⟩
    · simp at h0 h1
      rw [hrun2, h0, h1]
    · simp at hlen2
  · exact (claim8_history_reader ⟨"Empty", 0, []⟩).1 rfl

end Bank
